import Mathlib

/-!
Verification development for the streaming market-state aggregator and
signal scanner of the flashloan repository (arbitrage_detection/detection.py,
arbitrage_detection/main.py, integration.py).

Prices, volumes and timestamps are modelled as rationals.  Python dicts are
modelled as insertion-ordered association lists (Python dicts iterate in
insertion order, and assignment to an existing key keeps its position), so
dict iteration, `min`/`max` tie-breaking and FIFO behaviour are preserved.
-/

namespace Flashloan

/-- A stored per-(asset, exchange) quote: the dict
`{'price': ..., 'volume': ..., 'timestamp': ...}` written by
`ArbitrageDetector.update_data` (detection.py lines 99-103). -/
structure QuoteInfo where
  price : ℚ
  volume : ℚ
  timestamp : ℚ
deriving DecidableEq, Repr

/-- An incoming `normalized_data` dict as read by `update_data` via `.get`
(detection.py lines 82-86): each field is `none` when the key is missing. -/
structure RawTick where
  asset : Option String
  exchange : Option String
  price : Option ℚ
  volume : Option ℚ
  timestamp : Option ℚ
deriving DecidableEq, Repr

/-- Constructor parameters of `ArbitrageDetector` (detection.py lines 60-76). -/
structure Config where
  spread_threshold : ℚ
  update_interval : ℚ
  min_volume : ℚ
  volatility_factor : ℚ
  history_window : ℕ
  latency_threshold : ℚ
deriving DecidableEq, Repr

/-- The defaults of `ArbitrageDetector.__init__` (detection.py line 60-61):
spread_threshold=1.0, update_interval=1.0, min_volume=50,
volatility_factor=1.5, history_window=10, latency_threshold=1.0. -/
def defaultConfig : Config := ⟨1, 1, 50, 3/2, 10, 1⟩

/-- Lookup in an insertion-ordered association list (Python `d[k]` / `k in d`). -/
def alookup {β : Type} (k : String) : List (String × β) → Option β
  | [] => none
  | (k', v) :: rest => if k' = k then some v else alookup k rest

/-- Assignment `d[k] = v` on a Python dict: an existing key keeps its
position, a new key is appended at the end. -/
def aupdate {β : Type} (k : String) (v : β) : List (String × β) → List (String × β)
  | [] => [(k, v)]
  | (k', v') :: rest => if k' = k then (k, v) :: rest else (k', v') :: aupdate k v rest

/-- Mutable state of `ArbitrageDetector` (detection.py lines 78-79):
`latest_prices : { asset : { exchange : QuoteInfo } }` and
`price_history : { asset : [prices...] }`. -/
structure DetectorState where
  latest_prices : List (String × List (String × QuoteInfo))
  price_history : List (String × List ℚ)
deriving DecidableEq, Repr

/-- The state right after `__init__`: both dicts empty. -/
def initialState : DetectorState := ⟨[], []⟩

/-- One history insertion (detection.py lines 108-110): append the price,
then `pop(0)` once when the length exceeds the window. -/
def histStep (w : ℕ) (h : List ℚ) (p : ℚ) : List ℚ :=
  let h1 := h ++ [p]
  if w < h1.length then h1.drop 1 else h1

/-- `ArbitrageDetector.update_data` (detection.py lines 81-113).  If any of
the five fields is missing the update is skipped with a logged warning
(lines 88-90).  Otherwise the quote dict for (asset, exchange) is replaced
and the price appended to the asset's history with FIFO eviction.  The
latency warning (lines 92-94) and the SMA debug log (lines 112-113) only
log and do not touch the state.  Note: no check of `price > 0` or
`volume >= 0` is performed. -/
def update_data (cfg : Config) (st : DetectorState) (t : RawTick) : DetectorState :=
  match t.asset, t.exchange, t.price, t.volume, t.timestamp with
  | some a, some e, some p, some v, some ts =>
      let quotes := (alookup a st.latest_prices).getD []
      let lp := aupdate a (aupdate e ⟨p, v, ts⟩ quotes) st.latest_prices
      let hist := (alookup a st.price_history).getD []
      let ph := aupdate a (histStep cfg.history_window hist p) st.price_history
      ⟨lp, ph⟩
  | _, _, _, _, _ => st

/-- Whether `update_data` accepts the tick: exactly the presence check of
detection.py line 88. -/
def tickComplete (t : RawTick) : Bool :=
  t.asset.isSome && t.exchange.isSome && t.price.isSome && t.volume.isSome && t.timestamp.isSome

/-- Fold a sequence of ticks through `update_data` (the consumer loop of
main.py lines 38-41 / integration.py lines 35-39). -/
def applyAll (cfg : Config) (ticks : List RawTick) (st : DetectorState) : DetectorState :=
  ticks.foldl (update_data cfg) st

/-- The asset's price history as read back from the state. -/
def histOf (st : DetectorState) (a : String) : List ℚ :=
  (alookup a st.price_history).getD []

/-- The asset's per-exchange quote dict as read back from the state. -/
def quotesOf (st : DetectorState) (a : String) : List (String × QuoteInfo) :=
  (alookup a st.latest_prices).getD []

/-- The prices of the accepted (all-fields-present) ticks for one asset, in
arrival order. -/
def acceptedPricesFor (a : String) (ticks : List RawTick) : List ℚ :=
  ticks.filterMap fun t =>
    match t.asset, t.exchange, t.price, t.volume, t.timestamp with
    | some a', some _, some p, some _, some _ => if a' = a then some p else none
    | _, _, _, _, _ => none

/-! ### The asyncio queue (main.py line 45, integration.py line 43) -/

/-- Model of `asyncio.Queue`: per the asyncio semantics, `maxsize <= 0`
(and the default constructor uses `maxsize = 0`) means the queue size is
infinite and `full()` never returns true. -/
structure AQueue (α : Type) where
  maxsize : ℕ
  items : List α
deriving Repr

/-- `asyncio.Queue.full()`: true iff `maxsize` is positive and at least
`maxsize` items are queued. -/
def AQueue.full {α : Type} (q : AQueue α) : Bool :=
  decide (0 < q.maxsize) && decide (q.maxsize ≤ q.items.length)

/-- One `put`: appends when the queue is not full; `none` means the
producer would block awaiting free space. -/
def AQueue.putNow {α : Type} (q : AQueue α) (x : α) : Option (AQueue α) :=
  if q.full then none else some ⟨q.maxsize, q.items ++ [x]⟩

/-- Enqueue a whole list, skipping nothing (a blocked `put` would simply
wait, so on a never-full queue this is the exact trace). -/
def putAll {α : Type} (q : AQueue α) (xs : List α) : AQueue α :=
  xs.foldl (fun q x => match q.putNow x with | some q' => q' | none => q) q

/-- The queue as constructed in `main` (`asyncio.Queue()` with no maxsize
argument, main.py line 45 and integration.py line 43): maxsize 0. -/
def dataQueue (α : Type) : AQueue α := ⟨0, []⟩

/-! ### Python rounding -/

/-- Round a rational to the nearest integer, ties to the even integer
(the rounding used by Python's builtin `round`). -/
def roundHalfEven (q : ℚ) : ℤ :=
  let f := ⌊q⌋
  let r := q - f
  if r < 1/2 then f
  else if 1/2 < r then f + 1
  else if f % 2 = 0 then f else f + 1

/-- Python's `round(x, n)`: round to the closest multiple of `10^(-n)`,
ties to even. -/
def pyRound (n : ℕ) (q : ℚ) : ℚ :=
  (roundHalfEven (q * 10 ^ n) : ℚ) / 10 ^ n

/-! ### The scanner (`ArbitrageDetector.run_detection`, detection.py 115-179) -/

/-- The feature dict passed to `predict_signal` (detection.py lines 150-155). -/
structure Features where
  spread_percentage : ℚ
  volatility : ℚ
  volume : ℚ
  latency : ℚ
deriving DecidableEq, Repr

/-- An emitted arbitrage signal (detection.py lines 161-171).  The wall-clock
`timestamp` string (datetime.now().isoformat()) is outside the model. -/
structure Signal where
  asset : String
  buy_exchange : String
  sell_exchange : String
  buy_price : ℚ
  sell_price : ℚ
  spread_percentage : ℚ
  volatility : Option ℚ
  latency : ℚ
deriving DecidableEq, Repr

/-- `calculate_latency` (detection.py lines 24-26): current time minus the
tick's ingestion timestamp. -/
def calculate_latency (now ts : ℚ) : ℚ := now - ts

/-- The optional ML model (`ml_model`, detection.py lines 17-22): when
configured, scoring a feature vector either returns the class-1
probability (`predict_proba(...)[0][1]`) or raises (`Except.error`). -/
def MLModel : Type := Features → Except Unit ℚ

/-- A configured classifier whose scoring always raises. -/
def errModel : MLModel := fun _ => Except.error ()

/-- `predict_signal` (detection.py lines 41-57): with no model loaded the
signal is confirmed by default; with a model, a raised scoring error is
caught and yields `false`, otherwise confirm iff probability > 0.7. -/
def predict_signal (model : Option MLModel) (features : Features) : Bool :=
  match model with
  | none => true
  | some f =>
      match f features with
      | Except.ok p => decide ((7 : ℚ)/10 < p)
      | Except.error _ => false

/-- Python's `min(prices, key=lambda x: x[1])` on a nonempty list: the first
element with the least second component (ties keep the earlier element).
The `[]` case is unreachable in the scanner (it requires length ≥ 2). -/
def minBySnd (l : List (String × ℚ)) : String × ℚ :=
  match l with
  | [] => ("", 0)
  | x :: xs => xs.foldl (fun best y => if y.2 < best.2 then y else best) x

/-- Python's `max(prices, key=lambda x: x[1])`, first maximal element. -/
def maxBySnd (l : List (String × ℚ)) : String × ℚ :=
  match l with
  | [] => ("", 0)
  | x :: xs => xs.foldl (fun best y => if best.2 < y.2 then y else best) x

/-- Python's `min` over a nonempty list of numbers. -/
def listMin (l : List ℚ) : ℚ :=
  match l with
  | [] => 0
  | x :: xs => xs.foldl min x

/-- The volume filter of detection.py line 121: the quotes whose volume is
at least `min_volume`, in dict (insertion) order. -/
def validQuotes (cfg : Config) (quotes : List (String × QuoteInfo)) :
    List (String × QuoteInfo) :=
  quotes.filter fun q => decide (cfg.min_volume ≤ q.2.volume)

/-- The `prices` list of detection.py line 125. -/
def priceList (valid : List (String × QuoteInfo)) : List (String × ℚ) :=
  valid.map fun q => (q.1, q.2.price)

/-- The spread percentage of detection.py line 131, over the filtered quotes. -/
def spreadOf (valid : List (String × QuoteInfo)) : ℚ :=
  ((maxBySnd (priceList valid)).2 - (minBySnd (priceList valid)).2)
    / (minBySnd (priceList valid)).2 * 100

/-- The volatility of detection.py lines 133-140.  The body of the `try`
(sample stdev over floats, divided by the mean) is an external numerical
computation; it is a parameter `volFn`, with `none` standing for a raised
and caught exception.  The `len >= 2` guard (line 134) is the code's own. -/
def volOf (volFn : List ℚ → Option ℚ) (hist : List ℚ) : Option ℚ :=
  if 2 ≤ hist.length then volFn hist else none

/-- The detection criteria of detection.py lines 142-144. -/
def criteriaMet (cfg : Config) (spread : ℚ) (volatility : Option ℚ) : Bool :=
  match volatility with
  | none => decide (cfg.spread_threshold ≤ spread)
  | some v =>
      decide (cfg.spread_threshold ≤ spread) && decide (cfg.volatility_factor * v ≤ spread)

/-- The average latency of detection.py lines 147-148 over the filtered
quotes (with the code's `if latencies else 0` guard). -/
def avgLatencyOf (now : ℚ) (valid : List (String × QuoteInfo)) : ℚ :=
  let latencies := valid.map fun q => calculate_latency now q.2.timestamp
  if latencies.isEmpty then 0 else latencies.sum / latencies.length

/-- The feature dict of detection.py lines 150-155. -/
def featuresOf (volFn : List ℚ → Option ℚ) (now : ℚ) (hist : List ℚ)
    (valid : List (String × QuoteInfo)) : Features :=
  ⟨spreadOf valid, (volOf volFn hist).getD 0,
    listMin (valid.map fun q => q.2.volume), avgLatencyOf now valid⟩

/-- The body of the per-asset loop of `run_detection` (detection.py lines
117-178), for one asset.  Returns the emitted signal, if any, together
with the list of feature dicts handed to `predict_signal` (the code calls
`predict_signal` unconditionally at line 157, before the emission test at
line 159).  The alert sending (lines 172-178) is the external dispatcher. -/
def scanAsset (cfg : Config) (model : Option MLModel) (volFn : List ℚ → Option ℚ)
    (now : ℚ) (asset : String) (hist : List ℚ)
    (data_by_exchange : List (String × QuoteInfo)) : Option Signal × List Features :=
  if data_by_exchange.length < 2 then (none, [])
  else
    let valid_data := validQuotes cfg data_by_exchange
    if valid_data.length < 2 then (none, [])
    else
      let low := minBySnd (priceList valid_data)
      let high := maxBySnd (priceList valid_data)
      if low.2 = 0 then (none, [])
      else
        let spread_percentage := spreadOf valid_data
        let volatility := volOf volFn hist
        let avg_latency := avgLatencyOf now valid_data
        let features := featuresOf volFn now hist valid_data
        let ml_confirm := predict_signal model features
        if criteriaMet cfg spread_percentage volatility && ml_confirm then
          (some ⟨asset, low.1, high.1, low.2, high.2, pyRound 2 spread_percentage,
              volatility.map (pyRound 2), pyRound 3 avg_latency⟩, [features])
        else (none, [features])

/-- One pass of the `for asset, data_by_exchange in self.latest_prices.items()`
loop (detection.py lines 117-178): the signals emitted in one scan cycle,
in asset insertion order. -/
def scanCycle (cfg : Config) (model : Option MLModel) (volFn : List ℚ → Option ℚ)
    (now : ℚ) (st : DetectorState) : List Signal :=
  st.latest_prices.filterMap fun e =>
    (scanAsset cfg model volFn now e.1 (histOf st e.1) e.2).1

/-- The `while True` scan loop of `run_detection` (detection.py lines
116-179): each cycle reads the state as of that instant; `steps` is the
per-cycle (now, state) trace, one entry per loop iteration. -/
def run_detection (cfg : Config) (model : Option MLModel) (volFn : List ℚ → Option ℚ)
    (steps : List (ℚ × DetectorState)) : List (List Signal) :=
  steps.map fun s => scanCycle cfg model volFn s.1 s.2

/-! ### Association-list and history lemmas -/

theorem alookup_aupdate_self {β : Type} (k : String) (v : β) (l : List (String × β)) :
    alookup k (aupdate k v l) = some v := by
  induction l with
  | nil => simp [alookup, aupdate]
  | cons hd tl ih =>
      rcases hd with ⟨k', v'⟩
      by_cases h : k' = k <;> simp [alookup, aupdate, h, ih]

theorem alookup_aupdate_ne {β : Type} (k k' : String) (v : β) (l : List (String × β))
    (h : k' ≠ k) : alookup k (aupdate k' v l) = alookup k l := by
  induction l with
  | nil => simp [alookup, aupdate, h]
  | cons hd tl ih =>
      rcases hd with ⟨k'', v''⟩
      by_cases h2 : k'' = k'
      · subst h2; simp [alookup, aupdate, h]
      · by_cases h3 : k'' = k <;> simp [alookup, aupdate, h2, h3, ih, Ne.symm h]

theorem histStep_length_le (w : ℕ) (h : List ℚ) (p : ℚ) (hw : h.length ≤ w) :
    (histStep w h p).length ≤ w := by
  simp only [histStep]
  split
  · next hc => simp only [List.length_drop, List.length_append, List.length_singleton]; omega
  · next hc =>
      simp only [List.length_append, List.length_singleton]
      simp only [List.length_append, List.length_singleton, not_lt] at hc
      omega

theorem histStep_drop (w : ℕ) (ps : List ℚ) (p : ℚ) :
    histStep w (ps.drop (ps.length - w)) p =
      (ps ++ [p]).drop ((ps ++ [p]).length - w) := by
  simp only [histStep]
  rcases le_or_lt w ps.length with h | h
  · have hlen : (ps.drop (ps.length - w)).length = w := by
      rw [List.length_drop]; omega
    rw [if_pos (by simp only [List.length_append, List.length_singleton, hlen]; omega)]
    have hle : ps.length - w ≤ ps.length := Nat.sub_le _ _
    rw [← List.drop_append_of_le_length hle, List.drop_drop]
    congr 1
    simp only [List.length_append, List.length_singleton]
    omega
  · have hlen : ps.length - w = 0 := Nat.sub_eq_zero_of_le h.le
    have hlen2 : (ps ++ [p]).length - w = 0 := by
      simp only [List.length_append, List.length_singleton]; omega
    rw [hlen, hlen2, List.drop_zero, List.drop_zero,
      if_neg (by simp only [List.length_append, List.length_singleton]; omega)]

theorem update_data_incomplete (cfg : Config) (st : DetectorState) (t : RawTick)
    (h : tickComplete t = false) : update_data cfg st t = st := by
  rcases t with ⟨a, e, p, v, ts⟩
  cases a <;> cases e <;> cases p <;> cases v <;> cases ts <;>
    simp_all [update_data, tickComplete]

theorem update_data_complete (cfg : Config) (st : DetectorState)
    (a e : String) (p v ts : ℚ) :
    update_data cfg st ⟨some a, some e, some p, some v, some ts⟩ =
      ⟨aupdate a (aupdate e ⟨p, v, ts⟩ ((alookup a st.latest_prices).getD []))
         st.latest_prices,
       aupdate a (histStep cfg.history_window ((alookup a st.price_history).getD []) p)
         st.price_history⟩ := rfl

theorem applyAll_append_one (cfg : Config) (ts : List RawTick) (t : RawTick)
    (st : DetectorState) :
    applyAll cfg (ts ++ [t]) st = update_data cfg (applyAll cfg ts st) t := by
  simp [applyAll]

theorem histOf_applyAll (cfg : Config) (ticks : List RawTick) (a : String) :
    histOf (applyAll cfg ticks initialState) a =
      (acceptedPricesFor a ticks).drop
        ((acceptedPricesFor a ticks).length - cfg.history_window) := by
  induction ticks using List.reverseRecOn with
  | nil => simp [applyAll, histOf, initialState, alookup, acceptedPricesFor]
  | append_singleton ts t ih =>
      rw [applyAll_append_one]
      rcases t with ⟨oa, oe, op, ov, ots⟩
      rcases oa with _ | a' <;> rcases oe with _ | e <;> rcases op with _ | p <;>
        rcases ov with _ | v <;> rcases ots with _ | tts <;>
        first
        | (rw [update_data_incomplete cfg _ _ (by simp [tickComplete])]
           simpa [acceptedPricesFor] using ih)
        | skip
      -- remaining case: the fully complete tick
      rw [update_data_complete]
      by_cases hEq : a' = a
      · subst hEq
        have : acceptedPricesFor a' (ts ++ [⟨some a', some e, some p, some v, some tts⟩]) =
            acceptedPricesFor a' ts ++ [p] := by
          simp [acceptedPricesFor]
        rw [this]
        unfold histOf
        rw [alookup_aupdate_self]
        simp only [Option.getD_some]
        rw [show (alookup a' (applyAll cfg ts initialState).price_history).getD [] =
              histOf (applyAll cfg ts initialState) a' from rfl, ih]
        exact histStep_drop cfg.history_window (acceptedPricesFor a' ts) p
      · have : acceptedPricesFor a (ts ++ [⟨some a', some e, some p, some v, some tts⟩]) =
            acceptedPricesFor a ts := by
          simp [acceptedPricesFor, hEq]
        rw [this]
        unfold histOf
        rw [alookup_aupdate_ne _ _ _ _ hEq]
        exact ih

/-! ### min/max selection lemmas -/

theorem foldlMin_mem (xs : List (String × ℚ)) (x : String × ℚ) :
    xs.foldl (fun best y => if y.2 < best.2 then y else best) x ∈ x :: xs := by
  induction xs generalizing x with
  | nil => simp
  | cons y ys ih =>
      simp only [List.foldl_cons]
      by_cases hc : y.2 < x.2
      · rw [if_pos hc]
        rcases List.mem_cons.1 (ih y) with h1 | h1
        · rw [h1]; simp
        · simp [h1]
      · rw [if_neg hc]
        rcases List.mem_cons.1 (ih x) with h1 | h1
        · rw [h1]; simp
        · simp [h1]

theorem foldlMin_le (xs : List (String × ℚ)) (x : String × ℚ) :
    (xs.foldl (fun best y => if y.2 < best.2 then y else best) x).2 ≤ x.2 ∧
      ∀ y ∈ xs, (xs.foldl (fun best y => if y.2 < best.2 then y else best) x).2 ≤ y.2 := by
  induction xs generalizing x with
  | nil => simp
  | cons y ys ih =>
      simp only [List.foldl_cons]
      obtain ⟨h1, h2⟩ := ih (if y.2 < x.2 then y else x)
      refine ⟨?_, ?_⟩
      · refine le_trans h1 ?_
        by_cases hc : y.2 < x.2
        · rw [if_pos hc]; exact le_of_lt hc
        · rw [if_neg hc]
      · intro z hz
        rcases List.mem_cons.1 hz with h3 | h3
        · subst h3
          refine le_trans h1 ?_
          by_cases hc : z.2 < x.2
          · rw [if_pos hc]
          · rw [if_neg hc]; exact le_of_not_lt hc
        · exact h2 z h3

theorem foldlMax_mem (xs : List (String × ℚ)) (x : String × ℚ) :
    xs.foldl (fun best y => if best.2 < y.2 then y else best) x ∈ x :: xs := by
  induction xs generalizing x with
  | nil => simp
  | cons y ys ih =>
      simp only [List.foldl_cons]
      by_cases hc : x.2 < y.2
      · rw [if_pos hc]
        rcases List.mem_cons.1 (ih y) with h1 | h1
        · rw [h1]; simp
        · simp [h1]
      · rw [if_neg hc]
        rcases List.mem_cons.1 (ih x) with h1 | h1
        · rw [h1]; simp
        · simp [h1]

theorem foldlMax_ge (xs : List (String × ℚ)) (x : String × ℚ) :
    x.2 ≤ (xs.foldl (fun best y => if best.2 < y.2 then y else best) x).2 ∧
      ∀ y ∈ xs, y.2 ≤ (xs.foldl (fun best y => if best.2 < y.2 then y else best) x).2 := by
  induction xs generalizing x with
  | nil => simp
  | cons y ys ih =>
      simp only [List.foldl_cons]
      obtain ⟨h1, h2⟩ := ih (if x.2 < y.2 then y else x)
      refine ⟨?_, ?_⟩
      · refine le_trans ?_ h1
        by_cases hc : x.2 < y.2
        · rw [if_pos hc]; exact le_of_lt hc
        · rw [if_neg hc]
      · intro z hz
        rcases List.mem_cons.1 hz with h3 | h3
        · subst h3
          refine le_trans ?_ h1
          by_cases hc : x.2 < z.2
          · rw [if_pos hc]
          · rw [if_neg hc]; exact le_of_not_lt hc
        · exact h2 z h3

theorem minBySnd_mem (l : List (String × ℚ)) (h : l ≠ []) : minBySnd l ∈ l := by
  cases l with
  | nil => exact absurd rfl h
  | cons x xs => exact foldlMin_mem xs x

theorem minBySnd_le (l : List (String × ℚ)) (y : String × ℚ) (hy : y ∈ l) :
    (minBySnd l).2 ≤ y.2 := by
  cases l with
  | nil => simp at hy
  | cons x xs =>
      rcases List.mem_cons.1 hy with h | h
      · subst h; exact (foldlMin_le xs y).1
      · exact (foldlMin_le xs x).2 y h

theorem maxBySnd_mem (l : List (String × ℚ)) (h : l ≠ []) : maxBySnd l ∈ l := by
  cases l with
  | nil => exact absurd rfl h
  | cons x xs => exact foldlMax_mem xs x

theorem maxBySnd_ge (l : List (String × ℚ)) (y : String × ℚ) (hy : y ∈ l) :
    y.2 ≤ (maxBySnd l).2 := by
  cases l with
  | nil => simp at hy
  | cons x xs =>
      rcases List.mem_cons.1 hy with h | h
      · subst h; exact (foldlMax_ge xs y).1
      · exact (foldlMax_ge xs x).2 y h

/-! ### scanAsset branch lemmas -/

theorem validQuotes_length_le (cfg : Config) (quotes : List (String × QuoteInfo)) :
    (validQuotes cfg quotes).length ≤ quotes.length :=
  List.length_filter_le _ quotes

theorem scanAsset_of_few (cfg : Config) (model : Option MLModel)
    (volFn : List ℚ → Option ℚ) (now : ℚ) (a : String) (hist : List ℚ)
    (quotes : List (String × QuoteInfo))
    (h : (validQuotes cfg quotes).length < 2) :
    scanAsset cfg model volFn now a hist quotes = (none, []) := by
  simp only [scanAsset]
  by_cases hq : quotes.length < 2
  · rw [if_pos hq]
  · rw [if_neg hq, if_pos h]

theorem scanAsset_of_guards (cfg : Config) (model : Option MLModel)
    (volFn : List ℚ → Option ℚ) (now : ℚ) (a : String) (hist : List ℚ)
    (quotes : List (String × QuoteInfo))
    (h2 : 2 ≤ (validQuotes cfg quotes).length)
    (h0 : (minBySnd (priceList (validQuotes cfg quotes))).2 ≠ 0) :
    scanAsset cfg model volFn now a hist quotes =
      (if criteriaMet cfg (spreadOf (validQuotes cfg quotes)) (volOf volFn hist)
          && predict_signal model (featuresOf volFn now hist (validQuotes cfg quotes)) then
        some ⟨a, (minBySnd (priceList (validQuotes cfg quotes))).1,
              (maxBySnd (priceList (validQuotes cfg quotes))).1,
              (minBySnd (priceList (validQuotes cfg quotes))).2,
              (maxBySnd (priceList (validQuotes cfg quotes))).2,
              pyRound 2 (spreadOf (validQuotes cfg quotes)),
              (volOf volFn hist).map (pyRound 2),
              pyRound 3 (avgLatencyOf now (validQuotes cfg quotes))⟩
      else none,
      [featuresOf volFn now hist (validQuotes cfg quotes)]) := by
  have hql : ¬ quotes.length < 2 := by
    have := validQuotes_length_le cfg quotes
    omega
  simp only [scanAsset]
  rw [if_neg hql, if_neg (by omega), if_neg h0]
  split <;> rfl

theorem putAll_zero {α : Type} (init : List α) (xs : List α) :
    putAll ⟨0, init⟩ xs = ⟨0, init ++ xs⟩ := by
  induction xs generalizing init with
  | nil => simp [putAll]
  | cons x xs ih =>
      simp only [putAll, List.foldl_cons] at ih ⊢
      rw [show (AQueue.putNow ⟨0, init⟩ x : Option (AQueue α)) =
            some ⟨0, init ++ [x]⟩ from rfl]
      rw [ih (init ++ [x])]
      simp

/-- Sample ticks and configuration used by concrete witnesses. -/
def mkTick (a e : String) (p : ℚ) : RawTick :=
  ⟨some a, some e, some p, some 100, some 0⟩

def cfgW3 : Config := ⟨1, 1, 50, 3/2, 3, 1⟩

def ticksW : List RawTick :=
  [mkTick "BTC" "X" 1, mkTick "BTC" "X" 2, mkTick "BTC" "X" 3,
   mkTick "BTC" "X" 4, mkTick "BTC" "X" 5]

/-! ### Claim theorems -/

/-- Claim C1, counterexample: a tick with all five fields present but
`price = -1 < 0` is NOT dropped by `update_data` — it is stored as the
SourceQuote and appended to the history, so the store changes, contradicting
the claim that a tick failing the `price > 0` check leaves the store
unchanged. -/
theorem C1_counterexample :
    update_data defaultConfig initialState
        ⟨some "BTC", some "X", some (-1), some 5, some 0⟩ =
      ⟨[("BTC", [("X", ⟨-1, 5, 0⟩)])], [("BTC", [-1])]⟩ ∧
    update_data defaultConfig initialState
        ⟨some "BTC", some "X", some (-1), some 5, some 0⟩ ≠ initialState := by
  constructor
  · with_unfolding_all rfl
  · with_unfolding_all decide

/-- Claim C1 (amended): `update_data` validates only that all five fields
are present.  A tick with any field missing is dropped with the store
(latest_prices and price_history) unchanged, the rejection only logged,
never fatal; ANY tick with all five fields present — regardless of the sign
of price or volume — replaces the SourceQuote for (asset, exchange) and
appends its price to the asset's history with FIFO eviction. -/
theorem C1_validation (cfg : Config) (st : DetectorState) (t : RawTick) :
    (tickComplete t = false → update_data cfg st t = st) ∧
    (∀ a e p v ts, t = ⟨some a, some e, some p, some v, some ts⟩ →
      quotesOf (update_data cfg st t) a = aupdate e ⟨p, v, ts⟩ (quotesOf st a) ∧
      alookup e (quotesOf (update_data cfg st t) a) = some ⟨p, v, ts⟩ ∧
      histOf (update_data cfg st t) a =
        histStep cfg.history_window (histOf st a) p) := by
  refine ⟨update_data_incomplete cfg st t, ?_⟩
  intro a e p v ts ht
  subst ht
  rw [update_data_complete]
  have hq : quotesOf
      (⟨aupdate a (aupdate e ⟨p, v, ts⟩ ((alookup a st.latest_prices).getD []))
          st.latest_prices,
        aupdate a (histStep cfg.history_window ((alookup a st.price_history).getD []) p)
          st.price_history⟩ : DetectorState) a =
      aupdate e ⟨p, v, ts⟩ (quotesOf st a) := by
    unfold quotesOf
    rw [alookup_aupdate_self]
    rfl
  refine ⟨hq, ?_, ?_⟩
  · rw [hq, alookup_aupdate_self]
  · unfold histOf
    rw [alookup_aupdate_self]
    rfl

/-- Claim C1 witness: a tick missing its asset field leaves the store
unchanged; the complete tick ("BTC", "X", price 1, volume 2, ts 3) lands
as the stored quote. -/
theorem C1_witness :
    update_data defaultConfig initialState ⟨none, some "X", some 1, some 2, some 3⟩ =
      initialState ∧
    alookup "X" (quotesOf
        (update_data defaultConfig initialState
          ⟨some "BTC", some "X", some 1, some 2, some 3⟩) "BTC") =
      some ⟨1, 2, 3⟩ :=
  ⟨(C1_validation defaultConfig initialState _).1 (by with_unfolding_all rfl),
   ((C1_validation defaultConfig initialState _).2 "BTC" "X" 1 2 3 rfl).2.1⟩

/-- Claim C2, counterexample: the hand-off queue of `main` is
`asyncio.Queue()` with the default maxsize 0, i.e. unbounded — no capacity
`c` bounds the number of ticks it can hold, refuting the claim that the
channel is bounded by a fixed capacity (and it is never full, so a
producer never blocks). -/
theorem C2_counterexample :
    ¬ ∃ c : ℕ, ∀ xs : List RawTick,
        (putAll (dataQueue RawTick) xs).items.length ≤ c := by
  rintro ⟨c, hc⟩
  have h := hc (List.replicate (c + 1) ⟨none, none, none, none, none⟩)
  rw [show dataQueue RawTick = (⟨0, []⟩ : AQueue RawTick) from rfl, putAll_zero] at h
  simp only [List.nil_append, List.length_replicate] at h
  omega

/-- Claim C2 (amended): the hand-off channel is created with
`asyncio.Queue()` (default maxsize 0) in both entry points, so it is
unbounded: after any sequence of puts it holds exactly all enqueued ticks
in FIFO order, it is never full, and a further put succeeds immediately
(never blocks, never drops). -/
theorem C2_unbounded (xs : List RawTick) :
    (putAll (dataQueue RawTick) xs).items = xs ∧
    (putAll (dataQueue RawTick) xs).full = false ∧
    ∀ x : RawTick, (putAll (dataQueue RawTick) xs).putNow x =
      some (putAll (dataQueue RawTick) (xs ++ [x])) := by
  rw [show dataQueue RawTick = (⟨0, []⟩ : AQueue RawTick) from rfl]
  rw [putAll_zero]
  refine ⟨by simp, rfl, ?_⟩
  intro x
  rw [putAll_zero]
  simp [AQueue.putNow, AQueue.full]

/-- Claim C2 witness: five ticks enqueued on the fresh queue are all held,
in order. -/
theorem C2_witness :
    (putAll (dataQueue RawTick) ticksW).items = ticksW :=
  (C2_unbounded ticksW).1

/-- Claim C8: for every asset, after any tick sequence is applied from the
initial state, the asset's PriceHistory is exactly the suffix of its
accepted prices that fits the window: length is always at most
`history_window`, and once at least `history_window` accepted ticks for
the asset have arrived, the length is exactly `history_window` and the
content is the `history_window` most recent accepted prices in arrival
order (FIFO eviction of the oldest). -/
theorem C8_bounded_history (cfg : Config) (ticks : List RawTick) (a : String) :
    histOf (applyAll cfg ticks initialState) a =
      (acceptedPricesFor a ticks).drop
        ((acceptedPricesFor a ticks).length - cfg.history_window) ∧
    (histOf (applyAll cfg ticks initialState) a).length ≤ cfg.history_window ∧
    (cfg.history_window ≤ (acceptedPricesFor a ticks).length →
      (histOf (applyAll cfg ticks initialState) a).length = cfg.history_window) := by
  have h := histOf_applyAll cfg ticks a
  refine ⟨h, ?_, ?_⟩
  · rw [h, List.length_drop]; omega
  · intro hN; rw [h, List.length_drop]; omega

/-- Claim C8 witness: window 3, five accepted ticks with prices 1..5 for
"BTC": the history is the last three prices [3, 4, 5], of length exactly 3. -/
theorem C8_witness :
    histOf (applyAll cfgW3 ticksW initialState) "BTC" =
      (acceptedPricesFor "BTC" ticksW).drop
        ((acceptedPricesFor "BTC" ticksW).length - 3) ∧
    (histOf (applyAll cfgW3 ticksW initialState) "BTC").length = 3 ∧
    histOf (applyAll cfgW3 ticksW initialState) "BTC" = [3, 4, 5] :=
  ⟨(C8_bounded_history cfgW3 ticksW "BTC").1,
   (C8_bounded_history cfgW3 ticksW "BTC").2.2 (by with_unfolding_all decide),
   by with_unfolding_all rfl⟩

theorem scanAsset_fst_of_guards (cfg : Config) (model : Option MLModel)
    (volFn : List ℚ → Option ℚ) (now : ℚ) (a : String) (hist : List ℚ)
    (quotes : List (String × QuoteInfo))
    (h2 : 2 ≤ (validQuotes cfg quotes).length)
    (h0 : (minBySnd (priceList (validQuotes cfg quotes))).2 ≠ 0) :
    (scanAsset cfg model volFn now a hist quotes).1 =
      (if criteriaMet cfg (spreadOf (validQuotes cfg quotes)) (volOf volFn hist)
          && predict_signal model (featuresOf volFn now hist (validQuotes cfg quotes)) then
        some ⟨a, (minBySnd (priceList (validQuotes cfg quotes))).1,
              (maxBySnd (priceList (validQuotes cfg quotes))).1,
              (minBySnd (priceList (validQuotes cfg quotes))).2,
              (maxBySnd (priceList (validQuotes cfg quotes))).2,
              pyRound 2 (spreadOf (validQuotes cfg quotes)),
              (volOf volFn hist).map (pyRound 2),
              pyRound 3 (avgLatencyOf now (validQuotes cfg quotes))⟩
      else none) := by
  rw [scanAsset_of_guards cfg model volFn now a hist quotes h2 h0]

theorem scanAsset_snd_of_guards (cfg : Config) (model : Option MLModel)
    (volFn : List ℚ → Option ℚ) (now : ℚ) (a : String) (hist : List ℚ)
    (quotes : List (String × QuoteInfo))
    (h2 : 2 ≤ (validQuotes cfg quotes).length)
    (h0 : (minBySnd (priceList (validQuotes cfg quotes))).2 ≠ 0) :
    (scanAsset cfg model volFn now a hist quotes).2 =
      [featuresOf volFn now hist (validQuotes cfg quotes)] := by
  rw [scanAsset_of_guards cfg model volFn now a hist quotes h2 h0]

theorem scanAsset_of_zero (cfg : Config) (model : Option MLModel)
    (volFn : List ℚ → Option ℚ) (now : ℚ) (a : String) (hist : List ℚ)
    (quotes : List (String × QuoteInfo))
    (h2 : ¬ (validQuotes cfg quotes).length < 2)
    (h0 : (minBySnd (priceList (validQuotes cfg quotes))).2 = 0) :
    scanAsset cfg model volFn now a hist quotes = (none, []) := by
  have hql : ¬ quotes.length < 2 := by
    have := validQuotes_length_le cfg quotes
    omega
  simp only [scanAsset]
  rw [if_neg hql, if_neg h2, if_pos h0]

/-- Quotes used by concrete witnesses: source "A" at price 100, source "B"
at price 105, both with volume 200 and timestamp 0. -/
def quotesAB : List (String × QuoteInfo) :=
  [("A", ⟨100, 200, 0⟩), ("B", ⟨105, 200, 0⟩)]

/-- A configuration with a spread threshold of 50 (gate very hard to pass),
otherwise the defaults. -/
def cfgHighThr : Config := ⟨50, 1, 50, 3/2, 10, 1⟩

/-- Claim C4: the threshold gate passes exactly when the spread reaches
`spread_threshold` and, whenever volatility is present, additionally
reaches `volatility_factor * volatility`; with volatility absent only the
first condition applies.  Volatility is present exactly when the history
has at least two points and the stdev/mean computation succeeds.  With the
default factor 1.5 and volatility 4.0, a 5.0 spread fails the gate and a
7.0 spread passes it. -/
theorem C4_gate (cfg : Config) (spread : ℚ) (vol : Option ℚ)
    (volFn : List ℚ → Option ℚ) (hist : List ℚ) :
    (criteriaMet cfg spread vol = true ↔
      (cfg.spread_threshold ≤ spread ∧
        ∀ v, vol = some v → cfg.volatility_factor * v ≤ spread)) ∧
    (vol = none → (criteriaMet cfg spread vol = true ↔ cfg.spread_threshold ≤ spread)) ∧
    (2 ≤ hist.length → volOf volFn hist = volFn hist) ∧
    (hist.length < 2 → volOf volFn hist = none) ∧
    criteriaMet defaultConfig 5 (some 4) = false ∧
    criteriaMet defaultConfig 7 (some 4) = true := by
  refine ⟨?_, ?_, ?_, ?_, by with_unfolding_all rfl, by with_unfolding_all rfl⟩
  · cases vol with
    | none => simp [criteriaMet]
    | some v => simp [criteriaMet]
  · intro hv; subst hv; simp [criteriaMet]
  · intro h; unfold volOf; rw [if_pos h]
  · intro h; unfold volOf; rw [if_neg (by omega)]

/-- Claim C4 witness: the concrete gate evaluations, obtained from the
theorem at a concrete configuration. -/
theorem C4_witness :
    criteriaMet defaultConfig 5 (some 4) = false ∧
    criteriaMet defaultConfig 7 (some 4) = true ∧
    volOf (fun _ => some 4) [100, 101] = some 4 :=
  ⟨(C4_gate defaultConfig 5 (some 4) (fun _ => some 4) [100, 101]).2.2.2.2.1,
   (C4_gate defaultConfig 7 (some 4) (fun _ => some 4) [100, 101]).2.2.2.2.2,
   (C4_gate defaultConfig 5 (some 4) (fun _ => some 4) [100, 101]).2.2.1
     (by with_unfolding_all decide)⟩

/-- Claim C5: the scanner first restricts to quotes with volume at least
`min_volume` (every surviving quote satisfies that bound); with fewer than
two surviving quotes nothing is emitted; with a zero minimum price nothing
is emitted; an emitted signal's buy and sell sources are surviving quotes
(so never a below-minimum-volume quote), the buy price is the least and
the sell price the greatest surviving price, and the recorded spread is
(sell - buy) / buy * 100 (rounded to 2 places in the record). -/
theorem C5_volume_filter (cfg : Config) (model : Option MLModel)
    (volFn : List ℚ → Option ℚ) (now : ℚ) (a : String) (hist : List ℚ)
    (quotes : List (String × QuoteInfo)) :
    ((validQuotes cfg quotes).length < 2 →
      scanAsset cfg model volFn now a hist quotes = (none, [])) ∧
    (∀ q ∈ validQuotes cfg quotes, cfg.min_volume ≤ q.2.volume) ∧
    (2 ≤ (validQuotes cfg quotes).length →
      (minBySnd (priceList (validQuotes cfg quotes))).2 = 0 →
      scanAsset cfg model volFn now a hist quotes = (none, [])) ∧
    (∀ s, (scanAsset cfg model volFn now a hist quotes).1 = some s →
      (∃ q ∈ validQuotes cfg quotes, q.1 = s.buy_exchange ∧ q.2.price = s.buy_price) ∧
      (∃ q ∈ validQuotes cfg quotes, q.1 = s.sell_exchange ∧ q.2.price = s.sell_price) ∧
      (∀ q ∈ validQuotes cfg quotes, s.buy_price ≤ q.2.price ∧ q.2.price ≤ s.sell_price) ∧
      spreadOf (validQuotes cfg quotes) =
        (s.sell_price - s.buy_price) / s.buy_price * 100 ∧
      s.spread_percentage = pyRound 2 ((s.sell_price - s.buy_price) / s.buy_price * 100)) := by
  refine ⟨scanAsset_of_few cfg model volFn now a hist quotes, ?_, ?_, ?_⟩
  · intro q hq
    simp only [validQuotes, List.mem_filter, decide_eq_true_eq] at hq
    exact hq.2
  · intro h2 h0
    exact scanAsset_of_zero cfg model volFn now a hist quotes (by omega) h0
  · intro s hs
    by_cases h2 : (validQuotes cfg quotes).length < 2
    · rw [scanAsset_of_few cfg model volFn now a hist quotes h2] at hs
      simp at hs
    · by_cases h0 : (minBySnd (priceList (validQuotes cfg quotes))).2 = 0
      · rw [scanAsset_of_zero cfg model volFn now a hist quotes h2 h0] at hs
        simp at hs
      · rw [scanAsset_fst_of_guards cfg model volFn now a hist quotes (by omega) h0] at hs
        have hvl : 2 ≤ (validQuotes cfg quotes).length := by omega
        have hpne : priceList (validQuotes cfg quotes) ≠ [] := by
          intro hnil
          have h0l := congrArg List.length hnil
          simp only [priceList, List.length_map, List.length_nil] at h0l
          omega
        split at hs
        · next hcond =>
            injection hs with hsig
            subst hsig
            refine ⟨?_, ?_, ?_, rfl, rfl⟩
            · have hm := minBySnd_mem _ hpne
              obtain ⟨q, hq, hqe⟩ := List.mem_map.1 hm
              exact ⟨q, hq, by rw [← hqe], by rw [← hqe]⟩
            · have hm := maxBySnd_mem _ hpne
              obtain ⟨q, hq, hqe⟩ := List.mem_map.1 hm
              exact ⟨q, hq, by rw [← hqe], by rw [← hqe]⟩
            · intro q hq
              have hmem : (q.1, q.2.price) ∈ priceList (validQuotes cfg quotes) :=
                List.mem_map.2 ⟨q, hq, rfl⟩
              exact ⟨minBySnd_le _ _ hmem, maxBySnd_ge _ _ hmem⟩
        · simp at hs

/-- Claim C5 witness: quotes A at 100 and B at 105, both with volume 200
(above the default minimum 50): the emitted signal buys at A for 100,
sells at B for 105, and the spread is 5.0 percent. -/
theorem C5_witness :
    scanAsset defaultConfig none (fun _ => none) 0 "BTC" [] quotesAB =
      (some ⟨"BTC", "A", "B", 100, 105, 5, none, 0⟩, [⟨5, 0, 200, 0⟩]) ∧
    spreadOf (validQuotes defaultConfig quotesAB) = 5 ∧
    (∀ q ∈ validQuotes defaultConfig quotesAB,
      (100 : ℚ) ≤ q.2.price ∧ q.2.price ≤ 105) :=
  ⟨by with_unfolding_all rfl, by with_unfolding_all rfl,
   fun q hq => by
    have h := (C5_volume_filter defaultConfig none (fun _ => none) 0 "BTC" []
      quotesAB).2.2.2 ⟨"BTC", "A", "B", 100, 105, 5, none, 0⟩
      (by with_unfolding_all rfl)
    exact h.2.2.1 q hq⟩

/-- Claim C6: confirmation is fail-open and fail-closed.  With no model
configured `predict_signal` returns true, so a gate-passing asset emits a
signal; with a configured classifier whose scoring raises, `predict_signal`
returns false and no signal is emitted for that asset — unconditionally,
so the erroring model never aborts the evaluation (the scan of other
assets and later cycles is untouched, see the isolation theorem). -/
theorem C6_fail_modes (cfg : Config) (volFn : List ℚ → Option ℚ) (now : ℚ)
    (a : String) (hist : List ℚ) (quotes : List (String × QuoteInfo))
    (f : Features) :
    predict_signal none f = true ∧
    predict_signal (some errModel) f = false ∧
    (scanAsset cfg (some errModel) volFn now a hist quotes).1 = none ∧
    (2 ≤ (validQuotes cfg quotes).length →
      (minBySnd (priceList (validQuotes cfg quotes))).2 ≠ 0 →
      criteriaMet cfg (spreadOf (validQuotes cfg quotes)) (volOf volFn hist) = true →
      (scanAsset cfg none volFn now a hist quotes).1.isSome = true) := by
  have herr : ∀ g : Features, predict_signal (some errModel) g = false := by
    intro g; rfl
  refine ⟨rfl, herr f, ?_, ?_⟩
  · by_cases h2 : (validQuotes cfg quotes).length < 2
    · rw [scanAsset_of_few cfg (some errModel) volFn now a hist quotes h2]
    · by_cases h0 : (minBySnd (priceList (validQuotes cfg quotes))).2 = 0
      · rw [scanAsset_of_zero cfg (some errModel) volFn now a hist quotes h2 h0]
      · rw [scanAsset_fst_of_guards cfg (some errModel) volFn now a hist quotes
          (by omega) h0]
        rw [herr, Bool.and_false, if_neg (by simp)]
  · intro h2 h0 hc
    rw [scanAsset_fst_of_guards cfg none volFn now a hist quotes h2 h0]
    rw [hc, show predict_signal none
        (featuresOf volFn now hist (validQuotes cfg quotes)) = true from rfl]
    rfl

/-- Claim C6 witness: with the default configuration and quotes at 100/105
the gate passes; with no model a signal is emitted, with an always-erroring
model it is not. -/
theorem C6_witness :
    (scanAsset defaultConfig none (fun _ => none) 0 "BTC" [] quotesAB).1.isSome = true ∧
    (scanAsset defaultConfig (some errModel) (fun _ => none) 0 "BTC" [] quotesAB).1 = none :=
  ⟨(C6_fail_modes defaultConfig (fun _ => none) 0 "BTC" [] quotesAB ⟨0, 0, 0, 0⟩).2.2.2
      (by with_unfolding_all decide) (by with_unfolding_all decide)
      (by with_unfolding_all rfl),
   (C6_fail_modes defaultConfig (fun _ => none) 0 "BTC" [] quotesAB ⟨0, 0, 0, 0⟩).2.2.1⟩

/-- Claim C7, counterexample: with a spread threshold of 50, quotes at 100
and 101 give a spread of 1, so the threshold gate fails — yet the classifier
is called (the feature trace is nonempty, holding exactly the feature dict),
refuting the claim that the classifier is called only for an asset whose
gate passed.  (`predict_signal` is invoked at detection.py line 157, before
the `criteria_met and ml_confirm` test at line 159.) -/
theorem C7_counterexample :
    criteriaMet cfgHighThr
        (spreadOf (validQuotes cfgHighThr [("A", ⟨100, 200, 0⟩), ("B", ⟨101, 200, 0⟩)]))
        (volOf (fun _ => none) []) = false ∧
    (scanAsset cfgHighThr none (fun _ => none) 0 "BTC" []
        [("A", ⟨100, 200, 0⟩), ("B", ⟨101, 200, 0⟩)]).2 = [⟨1, 0, 200, 0⟩] ∧
    (scanAsset cfgHighThr none (fun _ => none) 0 "BTC" []
        [("A", ⟨100, 200, 0⟩), ("B", ⟨101, 200, 0⟩)]).1 = none := by
  refine ⟨by with_unfolding_all rfl, by with_unfolding_all rfl, by with_unfolding_all rfl⟩

/-- Claim C7 (amended): the classifier is called exactly once for EVERY
asset that reaches the feature step (at least two volume-filtered quotes
and nonzero minimum price), whether or not the threshold gate passed, and
it receives exactly the feature dict {spreadPct, volatilityPct-or-0,
minimum filtered volume, avgLatencySeconds}; emission is the AND of the
gate and the classifier's boolean. -/
theorem C7_classifier_call (cfg : Config) (model : Option MLModel)
    (volFn : List ℚ → Option ℚ) (now : ℚ) (a : String) (hist : List ℚ)
    (quotes : List (String × QuoteInfo))
    (h2 : 2 ≤ (validQuotes cfg quotes).length)
    (h0 : (minBySnd (priceList (validQuotes cfg quotes))).2 ≠ 0) :
    (scanAsset cfg model volFn now a hist quotes).2 =
      [⟨spreadOf (validQuotes cfg quotes), (volOf volFn hist).getD 0,
        listMin ((validQuotes cfg quotes).map fun q => q.2.volume),
        avgLatencyOf now (validQuotes cfg quotes)⟩] ∧
    (scanAsset cfg model volFn now a hist quotes).1.isSome =
      (criteriaMet cfg (spreadOf (validQuotes cfg quotes)) (volOf volFn hist) &&
        predict_signal model (featuresOf volFn now hist (validQuotes cfg quotes))) := by
  refine ⟨scanAsset_snd_of_guards cfg model volFn now a hist quotes h2 h0, ?_⟩
  rw [scanAsset_fst_of_guards cfg model volFn now a hist quotes h2 h0]
  by_cases hc : (criteriaMet cfg (spreadOf (validQuotes cfg quotes)) (volOf volFn hist) &&
      predict_signal model (featuresOf volFn now hist (validQuotes cfg quotes))) = true
  · rw [if_pos hc, hc]; rfl
  · rw [if_neg hc]
    simp only [Bool.not_eq_true] at hc
    rw [hc]
    rfl

/-- Claim C7 witness: the gate-failing concrete case still produces exactly
one classifier call with the computed feature dict. -/
theorem C7_witness :
    (scanAsset cfgHighThr none (fun _ => none) 0 "BTC" []
        [("A", ⟨100, 200, 0⟩), ("B", ⟨101, 200, 0⟩)]).2 =
      [⟨spreadOf (validQuotes cfgHighThr [("A", ⟨100, 200, 0⟩), ("B", ⟨101, 200, 0⟩)]),
        (volOf (fun _ => none) []).getD 0,
        listMin ((validQuotes cfgHighThr
          [("A", ⟨100, 200, 0⟩), ("B", ⟨101, 200, 0⟩)]).map fun q => q.2.volume),
        avgLatencyOf 0 (validQuotes cfgHighThr
          [("A", ⟨100, 200, 0⟩), ("B", ⟨101, 200, 0⟩)])⟩] :=
  (C7_classifier_call cfgHighThr none (fun _ => none) 0 "BTC" []
    [("A", ⟨100, 200, 0⟩), ("B", ⟨101, 200, 0⟩)]
    (by with_unfolding_all decide) (by with_unfolding_all decide)).1

/-- Claim C10: every emitted signal's spread_percentage is the computed
spread rounded (half-to-even) to 2 decimal places, its volatility the
computed volatility rounded to 2 places (None when absent), its latency
the computed average latency rounded to 3 places, while buy_price and
sell_price are the exact selected quote prices. -/
theorem C10_rounding (cfg : Config) (model : Option MLModel)
    (volFn : List ℚ → Option ℚ) (now : ℚ) (a : String) (hist : List ℚ)
    (quotes : List (String × QuoteInfo)) :
    ∀ s, (scanAsset cfg model volFn now a hist quotes).1 = some s →
      s.spread_percentage = pyRound 2 (spreadOf (validQuotes cfg quotes)) ∧
      s.volatility = (volOf volFn hist).map (pyRound 2) ∧
      s.latency = pyRound 3 (avgLatencyOf now (validQuotes cfg quotes)) ∧
      s.buy_price = (minBySnd (priceList (validQuotes cfg quotes))).2 ∧
      s.sell_price = (maxBySnd (priceList (validQuotes cfg quotes))).2 := by
  intro s hs
  by_cases h2 : (validQuotes cfg quotes).length < 2
  · rw [scanAsset_of_few cfg model volFn now a hist quotes h2] at hs
    simp at hs
  · by_cases h0 : (minBySnd (priceList (validQuotes cfg quotes))).2 = 0
    · rw [scanAsset_of_zero cfg model volFn now a hist quotes h2 h0] at hs
      simp at hs
    · rw [scanAsset_fst_of_guards cfg model volFn now a hist quotes (by omega) h0] at hs
      split at hs
      · injection hs with hsig
        subst hsig
        exact ⟨rfl, rfl, rfl, rfl, rfl⟩
      · simp at hs

/-- Claim C10 witness: with history [100, 101] and a volatility computation
yielding 1/3, timestamps 0 and scan time 1/3, the emitted signal holds
spread 5 (= round2 5), volatility 0.33 (= round2 of 1/3), latency 0.333
(= round3 of 1/3), and the exact prices 100 and 105. -/
theorem C10_witness :
    (5 : ℚ) = pyRound 2 (spreadOf (validQuotes defaultConfig quotesAB)) ∧
    (some (33/100) : Option ℚ) = (volOf (fun _ => some (1/3)) [100, 101]).map (pyRound 2) ∧
    (333/1000 : ℚ) = pyRound 3 (avgLatencyOf (1/3) (validQuotes defaultConfig quotesAB)) ∧
    (100 : ℚ) = (minBySnd (priceList (validQuotes defaultConfig quotesAB))).2 ∧
    (105 : ℚ) = (maxBySnd (priceList (validQuotes defaultConfig quotesAB))).2 :=
  C10_rounding defaultConfig none (fun _ => some (1/3)) (1/3) "BTC" [100, 101] quotesAB
    ⟨"BTC", "A", "B", 100, 105, 5, some (33/100), 333/1000⟩
    (by with_unfolding_all rfl)

/-- Claim C3: per-asset isolation and non-termination of the scan loop.
The cycle over `latest_prices` decomposes asset by asset, so the outcome
for one asset is a function of that asset's quotes and history alone; an
error raised inside one asset's volatility computation is caught there
(modelled by `volFn` returning `none` on that history) and cannot change
any other asset's evaluation or signal emission, nor the number of loop
iterations: the loop body is total and `run_detection` performs one scan
per step, for every step, whatever `volFn` does. -/
theorem C3_isolation (cfg : Config) (model : Option MLModel) (now : ℚ)
    (l1 l2 : List (String × List (String × QuoteInfo)))
    (b : String) (qb : List (String × QuoteInfo))
    (ph : List (String × List ℚ))
    (volFn volFn' : List ℚ → Option ℚ)
    (steps : List (ℚ × DetectorState)) :
    (scanCycle cfg model volFn now ⟨l1 ++ (b, qb) :: l2, ph⟩ =
      scanCycle cfg model volFn now ⟨l1, ph⟩ ++
        (scanAsset cfg model volFn now b ((alookup b ph).getD []) qb).1.toList ++
        scanCycle cfg model volFn now ⟨l2, ph⟩) ∧
    (volFn ((alookup b ph).getD []) = volFn' ((alookup b ph).getD []) →
      scanAsset cfg model volFn now b ((alookup b ph).getD []) qb =
        scanAsset cfg model volFn' now b ((alookup b ph).getD []) qb) ∧
    (run_detection cfg model volFn steps).length = steps.length := by
  refine ⟨?_, ?_, ?_⟩
  · simp only [scanCycle, histOf]
    rw [List.filterMap_append, List.filterMap_cons]
    cases h : (scanAsset cfg model volFn now b ((alookup b ph).getD []) qb).1 with
    | none => simp [h]
    | some s => simp [h]
  · intro h
    have hv : volOf volFn ((alookup b ph).getD []) =
        volOf volFn' ((alookup b ph).getD []) := by
      unfold volOf
      rw [h]
    simp only [scanAsset, featuresOf, hv]
  · simp [run_detection]

/-- Claim C3 witness: the single-asset state decomposes as the theorem
states, and an erroring volatility computation agrees with the
explicitly-absent one. -/
theorem C3_witness :
    scanCycle defaultConfig none (fun _ => none) 0 ⟨[("BTC", quotesAB)], []⟩ =
      [] ++ (scanAsset defaultConfig none (fun _ => none) 0 "BTC"
        ((alookup "BTC" ([] : List (String × List ℚ))).getD []) quotesAB).1.toList ++ [] ∧
    scanAsset defaultConfig none (fun _ => none) 0 "BTC"
        ((alookup "BTC" ([] : List (String × List ℚ))).getD []) quotesAB =
      scanAsset defaultConfig none (fun h => if h = [] then none else some 4) 0 "BTC"
        ((alookup "BTC" ([] : List (String × List ℚ))).getD []) quotesAB :=
  ⟨(C3_isolation defaultConfig none 0 [] [] "BTC" quotesAB []
      (fun _ => none) (fun h => if h = [] then none else some 4) []).1,
   (C3_isolation defaultConfig none 0 [] [] "BTC" quotesAB []
      (fun _ => none) (fun h => if h = [] then none else some 4) []).2.1
      (by with_unfolding_all rfl)⟩

end Flashloan
